import Mathlib

/-!
# Verification of the `approval` flow-engine

Shallow embedding of the Go package `approval` (flow-engine): the in-memory
`Graph` built from a `Process` definition, the handler registry, and the
single-step traversal algorithm `ProcessHandler.ProcessNode` /
`ProcessHandler.ProcessEdge`.

Modelling conventions:
* Go maps (`map[string]NodeInterface`, `map[string]EdgeInterface`) are modelled
  as association lists of key/value entries.  Go's map iteration order is
  unspecified; the entry list of a `Graph` stands for one admissible iteration
  order.  `NewProcess` produces the insertion-order representative (nodes and
  edges in declaration order, later duplicate IDs overwriting in place), which
  is one of the orders a Go runtime may present.
* Handler functions (`NodeHandlerFunc`, `EdgeHandlerFunc`, ...) are modelled as
  pure Lean functions returning the Go results: `Option GoError` for an
  `error`, `Bool × Option GoError` for `(bool, error)`.
* To reason about invocation order, every embedded operation that invokes a
  handler also returns the list of `Event`s it produced, in invocation order.
  This trace is the observable behaviour of one `Step` call.
* Go `error` values are modelled structurally by `GoError`; each distinct
  `fmt.Errorf` call site of the source gets its own constructor, and handler
  errors are arbitrary `GoError` values so that "propagates unchanged" is a
  meaningful statement.
* The opaque `pgtype.JSONB` extras blobs are never interpreted by the engine;
  they are modelled as `List Nat` (opaque bytes).
-/

/-- Go `type NodeType string` (define.go). -/
abbrev NodeType := String

/-- Go `type EdgeType string` (define.go). -/
abbrev EdgeType := String

/-- Structural model of the Go `error` values produced or propagated by the
engine.  The first four constructors correspond to the four `fmt.Errorf`
call sites of the source; `handlerFailure` stands for whatever error value a
caller-supplied handler returns. -/
inductive GoError where
  /-- `fmt.Errorf("节点 %s 不存在", nodeID)` in `ProcessNode`. -/
  | nodeNotFound (nodeID : String)
  /-- `fmt.Errorf("未找到节点类型 %s 的处理器", node.GetType())` in `ProcessNode`. -/
  | nodeHandlerNotFound (t : NodeType)
  /-- `fmt.Errorf("未找到边类型 %s 的处理器", edge.GetType())` in `ProcessEdge`. -/
  | edgeHandlerNotFound (t : EdgeType)
  /-- `fmt.Errorf("未找到边 %s 的目标节点", edge.GetID())` in `GetNextNodeByEdge`. -/
  | destinationUnresolved (edgeID : String)
  /-- An error value returned by a caller-supplied handler. -/
  | handlerFailure (msg : String)
deriving DecidableEq, Repr

/-- Go `struct Node` (define.go): Name, ID, NodeType, NodeExtras.
The opaque extras blob is modelled as a list of bytes. -/
structure Node where
  Name : String
  ID : String
  NodeType : NodeType
  NodeExtras : List Nat
deriving DecidableEq, Repr

/-- Go `struct Edge` (define.go): ID, DstID, SrcID, Priority, EdgeType,
EdgeExtras. -/
structure Edge where
  ID : String
  DstID : String
  SrcID : String
  Priority : Int
  EdgeType : EdgeType
  EdgeExtras : List Nat
deriving DecidableEq, Repr

/-- Go `struct Process` (define.go): the caller-supplied process definition. -/
structure Process where
  Nodes : List Node
  Edges : List Edge
deriving DecidableEq, Repr

/-- `NodeHandlerFunc`: `func(ctx, node) error`; `none` models a nil error. -/
abbrev NodeHandlerFunc := Node → Option GoError

/-- `NodeHandlerBeforeFunc`: `func(ctx, node) error`. -/
abbrev NodeHandlerBeforeFunc := Node → Option GoError

/-- `NodeHandlerAfterFunc`: `func(ctx, node) error`. -/
abbrev NodeHandlerAfterFunc := Node → Option GoError

/-- `EdgeHandlerFunc`: `func(ctx, edge) (bool, error)`. -/
abbrev EdgeHandlerFunc := Edge → Bool × Option GoError

/-- `CirculateHandler.CirculateHandler`: `func(ctx, edge) (bool, error)`. -/
abbrev CirculateHandlerFunc := Edge → Bool × Option GoError

/-- One entry of a Go `map[string]α`, modelled as a key/value pair. -/
abbrev MapEntry (α : Type) := String × α

/-- Go map assignment `m[k] = v`: overwrite the entry holding key `k` in
place if present, otherwise add a new entry. -/
def mapInsert {α : Type} (m : List (MapEntry α)) (k : String) (v : α) :
    List (MapEntry α) :=
  if m.any (fun p => p.1 == k) then
    m.map (fun p => if p.1 == k then (k, v) else p)
  else
    m ++ [(k, v)]

/-- Go map read `v, ok := m[k]`: `some v` when the key is present. -/
def mapLookup {α : Type} (m : List (MapEntry α)) (k : String) : Option α :=
  (m.find? (fun p => p.1 == k)).map Prod.snd

/-- Go `struct Graph`: the two maps `nodes` and `edges`, each modelled as its
entry list in one admissible iteration order. -/
structure Graph where
  nodes : List (MapEntry Node)
  edges : List (MapEntry Edge)
deriving Repr

/-- Insertion sort of edges by ascending `Priority`.  This models the
`sort.Slice(process.Edges, less: Priority <)` call in `NewProcess`.  Go's
`sort.Slice` is unstable, so only inputs with pairwise-distinct priorities
have a fully determined output; on those inputs every comparison sort,
including this one, produces the unique ascending arrangement. -/
def insertEdgeByPriority (e : Edge) : List Edge → List Edge
  | [] => [e]
  | f :: fs =>
    if e.Priority ≤ f.Priority then e :: f :: fs else f :: insertEdgeByPriority e fs

/-- See `insertEdgeByPriority`. -/
def sortEdgesByPriority : List Edge → List Edge
  | [] => []
  | e :: es => insertEdgeByPriority e (sortEdgesByPriority es)

/-- Go `NewProcess(process *Process) *Graph`.  It fills the two maps from the
declaration-order slices, and then sorts the caller's `process.Edges` slice
in place by priority — after the maps have already been filled.  The model
returns the constructed graph together with the process value as it stands
after the call, so that the mutation of the caller's definition is visible. -/
def NewProcess (process : Process) : Graph × Process :=
  let nodes := process.Nodes.foldl (fun m node => mapInsert m node.ID node) []
  let edges := process.Edges.foldl (fun m edge => mapInsert m edge.ID edge) []
  (⟨nodes, edges⟩, { process with Edges := sortEdgesByPriority process.Edges })

/-- Go `(p *Graph) GetNodeByID`: map read, `some` iff present. -/
def Graph.GetNodeByID (p : Graph) (nodeID : String) : Option Node :=
  mapLookup p.nodes nodeID

/-- Go `(p *Graph) GetOutgoingEdges`: iterate the edge map (in its iteration
order) and collect the edges whose source is `nodeID`. -/
def Graph.GetOutgoingEdges (p : Graph) (nodeID : String) : List Edge :=
  (p.edges.map Prod.snd).filter (fun e => e.SrcID == nodeID)

/-- Go `(p *Graph) GetIncomingEdges`: iterate the edge map and collect the
edges whose destination is `nodeID`. -/
def Graph.GetIncomingEdges (p : Graph) (nodeID : String) : List Edge :=
  (p.edges.map Prod.snd).filter (fun e => e.DstID == nodeID)

/-- Go `(p *Graph) GetNextNodes`: for each outgoing edge, append the
destination node when it exists (edges with an absent destination are
skipped); the returned error is always nil. -/
def Graph.GetNextNodes (p : Graph) (nodeID : String) :
    List Node × Option GoError :=
  ((p.GetOutgoingEdges nodeID).filterMap (fun e => p.GetNodeByID e.DstID), none)

/-- Go `(p *Graph) GetNextNodeByEdge`: destination node when `edge.DstID` is
in the node map, otherwise the `destinationUnresolved` error. -/
def Graph.GetNextNodeByEdge (p : Graph) (edge : Edge) : Except GoError Node :=
  match p.GetNodeByID edge.DstID with
  | some nextNode => .ok nextNode
  | none => .error (.destinationUnresolved edge.ID)

/-- The registry as the engine consumes it: the four `Get…Handler` lookups of
`ProcessRegistryInterface` (exact-match by type tag, `none` when no handler is
registered for the tag). -/
structure ProcessRegistry where
  getNodeHandler : NodeType → Option NodeHandlerFunc
  getNodeAfterHandler : NodeType → Option NodeHandlerAfterFunc
  getNodeBeforeHandler : NodeType → Option NodeHandlerBeforeFunc
  getEdgeHandler : EdgeType → Option EdgeHandlerFunc

/-- Go `struct ProcessHandler`: the graph, the registry and the optional
circulate (state-commit) callback, `none` modelling a nil interface. -/
structure ProcessHandler where
  process : Graph
  registry : ProcessRegistry
  circulate : Option CirculateHandlerFunc

/-- One observable handler invocation during a step, recorded in invocation
order. -/
inductive Event where
  /-- The node's on-handler (`nodeHandler`) was invoked on this node. -/
  | onHandler (nodeID : String)
  /-- An edge's decision-handler (`edgeHandler`) was invoked on this edge. -/
  | edgeHandler (edgeID : String)
  /-- The source node's after-handler was invoked. -/
  | afterHandler (nodeID : String)
  /-- The circulate (state-commit) callback was invoked on the chosen edge. -/
  | circulate (edgeID : String)
  /-- The destination node's before-handler was invoked. -/
  | beforeHandler (nodeID : String)
deriving DecidableEq, Repr

/-- Go `(ph *ProcessHandler) ProcessEdge`: look up the decision-handler for
the edge's type; missing handler is the `edgeHandlerNotFound` error with no
invocation; otherwise the handler's `(bool, error)` result, with its
invocation recorded. -/
def ProcessHandler.ProcessEdge (ph : ProcessHandler) (edge : Edge) :
    (Bool × Option GoError) × List Event :=
  match ph.registry.getEdgeHandler edge.EdgeType with
  | none => ((false, some (.edgeHandlerNotFound edge.EdgeType)), [])
  | some edgeHandler => (edgeHandler edge, [.edgeHandler edge.ID])

/-- The `(bool, error)` decision `ProcessNode` sees for an edge: the first
component of `ProcessEdge`. -/
def ProcessHandler.edgeDecision (ph : ProcessHandler) (edge : Edge) :
    Bool × Option GoError :=
  (ph.ProcessEdge edge).1

/-- The optional after-handler call on the source node inside the accepted
branch of `ProcessNode`: skipped silently when no after-handler is
registered. -/
def ProcessHandler.runAfterHandler (ph : ProcessHandler) (node : Node) :
    Option GoError × List Event :=
  match ph.registry.getNodeAfterHandler node.NodeType with
  | none => (none, [])
  | some afterHandler => (afterHandler node, [.afterHandler node.ID])

/-- The optional circulate (state-commit) call inside the accepted branch of
`ProcessNode`: skipped when `ph.circulate` is nil.  The Go code reassigns
`ok` with the callback's boolean but never reads it again (the loop breaks
right after), so only the error component is kept. -/
def ProcessHandler.runCirculate (ph : ProcessHandler) (edge : Edge) :
    Option GoError × List Event :=
  match ph.circulate with
  | none => (none, [])
  | some circulateHandler => ((circulateHandler edge).2, [.circulate edge.ID])

/-- The optional before-handler call on the destination node inside the
accepted branch of `ProcessNode`. -/
def ProcessHandler.runBeforeHandler (ph : ProcessHandler) (nextNode : Node) :
    Option GoError × List Event :=
  match ph.registry.getNodeBeforeHandler nextNode.NodeType with
  | none => (none, [])
  | some beforeHandler => (beforeHandler nextNode, [.beforeHandler nextNode.ID])

/-- The body of the `if ok` branch of the edge loop in `ProcessNode`: invoke
the source node's after-handler, then the circulate callback, then resolve
the destination via `GetNextNodeByEdge`, then invoke the destination's
before-handler; the first failure aborts and skips everything after it. -/
def ProcessHandler.acceptedActions (ph : ProcessHandler) (node : Node)
    (edge : Edge) : Option GoError × List Event :=
  match ph.runAfterHandler node with
  | (some err, tr) => (some err, tr)
  | (none, tr₁) =>
    match ph.runCirculate edge with
    | (some err, tr) => (some err, tr₁ ++ tr)
    | (none, tr₂) =>
      match ph.process.GetNextNodeByEdge edge with
      | .error err => (some err, tr₁ ++ tr₂)
      | .ok nextNode =>
        match ph.runBeforeHandler nextNode with
        | (err, tr₃) => (err, tr₁ ++ tr₂ ++ tr₃)

/-- The `for _, edge := range …GetOutgoingEdges(nodeID)` loop of
`ProcessNode`: evaluate each edge with `ProcessEdge`; a handler error aborts
the loop; the first accepted edge runs `acceptedActions` and breaks; when no
edge is accepted the loop falls through to `return nil`. -/
def ProcessHandler.processEdgesLoop (ph : ProcessHandler) (node : Node) :
    List Edge → Option GoError × List Event
  | [] => (none, [])
  | edge :: rest =>
    match ph.ProcessEdge edge with
    | ((ok, err), tr₁) =>
      match err with
      | some e => (some e, tr₁)
      | none =>
        if ok then
          match ph.acceptedActions node edge with
          | (err₂, tr₂) => (err₂, tr₁ ++ tr₂)
        else
          match ph.processEdgesLoop node rest with
          | (err₃, tr₃) => (err₃, tr₁ ++ tr₃)

/-- Go `(ph *ProcessHandler) ProcessNode`: resolve the node, resolve and run
its on-handler, then run the outgoing-edge loop on
`GetOutgoingEdges(nodeID)`. -/
def ProcessHandler.ProcessNode (ph : ProcessHandler) (nodeID : String) :
    Option GoError × List Event :=
  match ph.process.GetNodeByID nodeID with
  | none => (some (.nodeNotFound nodeID), [])
  | some node =>
    match ph.registry.getNodeHandler node.NodeType with
    | none => (some (.nodeHandlerNotFound node.NodeType), [])
    | some nodeHandler =>
      match nodeHandler node with
      | some err => (some err, [.onHandler node.ID])
      | none =>
        match ph.processEdgesLoop node (ph.process.GetOutgoingEdges nodeID) with
        | (err, tr) => (err, .onHandler node.ID :: tr)

/-! ## Observation functions for the step trace -/

/-- The IDs of the edges whose decision-handler invocation appears in a trace,
in invocation order. -/
def edgeEvents (tr : List Event) : List String :=
  tr.filterMap fun ev =>
    match ev with
    | .edgeHandler edgeID => some edgeID
    | _ => none

/-- Whether an event is one of the three post-acceptance hooks: after-handler,
circulate (state-commit) callback, or before-handler. -/
def Event.isHook : Event → Bool
  | .afterHandler _ => true
  | .circulate _ => true
  | .beforeHandler _ => true
  | _ => false

/-- The sub-trace of post-acceptance hook invocations, in invocation order. -/
def hookEvents (tr : List Event) : List Event :=
  tr.filter Event.isHook

/-! ## Reference description of the decision loop

`triedEdges` and `loopOutcome` describe, directly from the decisions the loop
will see, which edges the loop reaches and how it ends: edges are taken in
order, and the loop stops at the first edge whose decision carries an error
(abort) or is accepted. -/

/-- The prefix of the edge list that the loop evaluates: every edge up to and
including the first one whose decision errs or accepts. -/
def triedEdges (decision : Edge → Bool × Option GoError) :
    List Edge → List Edge
  | [] => []
  | e :: rest =>
    match decision e with
    | (_, some _) => [e]
    | (true, none) => [e]
    | (false, none) => e :: triedEdges decision rest

/-- How the decision loop ends. -/
inductive LoopOutcome where
  /-- Some decision carried an error; the loop aborts with it. -/
  | fail (err : GoError)
  /-- An edge was accepted; it is the chosen transition. -/
  | accepted (edge : Edge)
  /-- Every decision declined; the loop fell through. -/
  | exhausted
deriving DecidableEq, Repr

/-- The outcome of the decision loop on an edge list. -/
def loopOutcome (decision : Edge → Bool × Option GoError) :
    List Edge → LoopOutcome
  | [] => .exhausted
  | e :: rest =>
    match decision e with
    | (_, some err) => .fail err
    | (true, none) => .accepted e
    | (false, none) => loopOutcome decision rest

/-- The trace the loop accumulates while evaluating decisions: the
concatenation of the `ProcessEdge` traces of the tried edges. -/
def ProcessHandler.triedTrace (ph : ProcessHandler) (es : List Edge) :
    List Event :=
  (triedEdges ph.edgeDecision es).flatMap fun e => (ph.ProcessEdge e).2

/-- Ascending-priority order on an edge list. -/
def SortedByPriority (es : List Edge) : Prop :=
  List.Pairwise (fun a b => a.Priority ≤ b.Priority) es

instance : DecidablePred SortedByPriority := fun es =>
  inferInstanceAs (Decidable (List.Pairwise _ es))

/-- A node map whose entries are keyed by the stored node's own ID, as every
map built by `NewProcess` is. -/
def Graph.WellKeyed (g : Graph) : Prop :=
  ∀ kv ∈ g.nodes, kv.1 = kv.2.ID

instance (g : Graph) : Decidable g.WellKeyed :=
  List.decidableBAll (fun kv : MapEntry Node => kv.1 = kv.2.ID) g.nodes

/-! ## Supporting lemmas -/

theorem edgeEvents_append (tr₁ tr₂ : List Event) :
    edgeEvents (tr₁ ++ tr₂) = edgeEvents tr₁ ++ edgeEvents tr₂ := by
  simp [edgeEvents]

theorem hookEvents_append (tr₁ tr₂ : List Event) :
    hookEvents (tr₁ ++ tr₂) = hookEvents tr₁ ++ hookEvents tr₂ := by
  simp [hookEvents]

theorem ProcessEdge_trace_of_some (ph : ProcessHandler) (e : Edge)
    (h : (ph.registry.getEdgeHandler e.EdgeType).isSome) :
    (ph.ProcessEdge e).2 = [.edgeHandler e.ID] := by
  rcases hh : ph.registry.getEdgeHandler e.EdgeType with _ | f
  · rw [hh] at h; simp at h
  · simp [ProcessHandler.ProcessEdge, hh]

theorem hookEvents_ProcessEdge (ph : ProcessHandler) (e : Edge) :
    hookEvents (ph.ProcessEdge e).2 = [] := by
  rcases hh : ph.registry.getEdgeHandler e.EdgeType with _ | f <;>
    simp [ProcessHandler.ProcessEdge, hh, hookEvents, Event.isHook]

theorem edgeEvents_runAfterHandler (ph : ProcessHandler) (node : Node) :
    edgeEvents (ph.runAfterHandler node).2 = [] := by
  rcases hh : ph.registry.getNodeAfterHandler node.NodeType with _ | f <;>
    simp [ProcessHandler.runAfterHandler, hh, edgeEvents]

theorem edgeEvents_runCirculate (ph : ProcessHandler) (e : Edge) :
    edgeEvents (ph.runCirculate e).2 = [] := by
  rcases hh : ph.circulate with _ | c <;>
    simp [ProcessHandler.runCirculate, hh, edgeEvents]

theorem edgeEvents_runBeforeHandler (ph : ProcessHandler) (nextNode : Node) :
    edgeEvents (ph.runBeforeHandler nextNode).2 = [] := by
  rcases hh : ph.registry.getNodeBeforeHandler nextNode.NodeType with _ | f <;>
    simp [ProcessHandler.runBeforeHandler, hh, edgeEvents]

theorem edgeEvents_acceptedActions (ph : ProcessHandler) (node : Node)
    (e : Edge) : edgeEvents (ph.acceptedActions node e).2 = [] := by
  unfold ProcessHandler.acceptedActions
  rcases ha : ph.runAfterHandler node with ⟨_ | aerr, tra⟩
  · rcases hc : ph.runCirculate e with ⟨_ | cerr, trc⟩
    · rcases hn : ph.process.GetNextNodeByEdge e with nerr | nxt
      · have h₁ := edgeEvents_runAfterHandler ph node
        have h₂ := edgeEvents_runCirculate ph e
        rw [ha] at h₁; rw [hc] at h₂
        simp [edgeEvents_append, h₁, h₂]
      · have h₁ := edgeEvents_runAfterHandler ph node
        have h₂ := edgeEvents_runCirculate ph e
        rw [ha] at h₁; rw [hc] at h₂
        simp [edgeEvents_append, h₁, h₂, edgeEvents_runBeforeHandler]
    · have h₁ := edgeEvents_runAfterHandler ph node
      have h₂ := edgeEvents_runCirculate ph e
      rw [ha] at h₁; rw [hc] at h₂
      simp [edgeEvents_append, h₁, h₂]
  · have h₁ := edgeEvents_runAfterHandler ph node
    rw [ha] at h₁
    simp [h₁]

/-- Characterization of the outgoing-edge loop: its result and trace are
determined by the decisions of the tried edges — the loop aborts with the
first erring decision, runs the accepted-edge actions at the first accepting
decision, and falls through returning nil when every decision declines. -/
theorem ProcessHandler.processEdgesLoop_eq (ph : ProcessHandler) (node : Node)
    (es : List Edge) :
    ph.processEdgesLoop node es =
      match loopOutcome ph.edgeDecision es with
      | .fail err => (some err, ph.triedTrace es)
      | .accepted e => ((ph.acceptedActions node e).1,
          ph.triedTrace es ++ (ph.acceptedActions node e).2)
      | .exhausted => (none, ph.triedTrace es) := by
  induction es with
  | nil => simp [processEdgesLoop, loopOutcome, triedTrace, triedEdges]
  | cons e rest ih =>
    rcases hPE : ph.ProcessEdge e with ⟨⟨ok, err⟩, tr⟩
    have hdec : ph.edgeDecision e = (ok, err) := by
      simp [ProcessHandler.edgeDecision, hPE]
    cases err with
    | some er =>
      simp [ProcessHandler.processEdgesLoop, hPE, loopOutcome, hdec,
        ProcessHandler.triedTrace, triedEdges]
    | none =>
      cases ok with
      | true =>
        simp [ProcessHandler.processEdgesLoop, hPE, loopOutcome, hdec,
          ProcessHandler.triedTrace, triedEdges]
      | false =>
        rcases hLO : loopOutcome ph.edgeDecision rest with er | ae | _ <;>
          simp [ProcessHandler.processEdgesLoop, hPE, ih, hLO, loopOutcome,
            hdec, ProcessHandler.triedTrace, triedEdges]

theorem triedEdges_subset (decision : Edge → Bool × Option GoError)
    (es : List Edge) : ∀ e ∈ triedEdges decision es, e ∈ es := by
  induction es with
  | nil => simp [triedEdges]
  | cons a rest ih =>
    intro e he
    unfold triedEdges at he
    rcases hd : decision a with ⟨ok, err⟩
    rw [hd] at he
    cases err with
    | some er => simp at he; simp [he]
    | none =>
      cases ok with
      | true => simp at he; simp [he]
      | false =>
        simp at he
        rcases he with he | he
        · simp [he]
        · exact List.mem_cons_of_mem a (ih e he)

theorem edgeEvents_flatMap_ProcessEdge (ph : ProcessHandler)
    (L : List Edge)
    (h : ∀ e ∈ L, (ph.registry.getEdgeHandler e.EdgeType).isSome) :
    edgeEvents (L.flatMap fun e => (ph.ProcessEdge e).2) = L.map Edge.ID := by
  induction L with
  | nil => simp [edgeEvents]
  | cons a rest ih =>
    have ha : (ph.registry.getEdgeHandler a.EdgeType).isSome := h a (by simp)
    have hrest : ∀ e ∈ rest, (ph.registry.getEdgeHandler e.EdgeType).isSome :=
      fun e he => h e (List.mem_cons_of_mem a he)
    rw [List.flatMap_cons, edgeEvents_append, ih hrest,
      ProcessEdge_trace_of_some ph a ha]
    simp [edgeEvents]

theorem edgeEvents_triedTrace (ph : ProcessHandler) (es : List Edge)
    (h : ∀ e ∈ es, (ph.registry.getEdgeHandler e.EdgeType).isSome) :
    edgeEvents (ph.triedTrace es) = (triedEdges ph.edgeDecision es).map Edge.ID := by
  unfold ProcessHandler.triedTrace
  exact edgeEvents_flatMap_ProcessEdge ph _
    (fun e he => h e (triedEdges_subset ph.edgeDecision es e he))

theorem hookEvents_triedTrace (ph : ProcessHandler) (es : List Edge) :
    hookEvents (ph.triedTrace es) = [] := by
  unfold ProcessHandler.triedTrace
  induction triedEdges ph.edgeDecision es with
  | nil => simp [hookEvents]
  | cons a rest ih => simp [hookEvents_append, ih, hookEvents_ProcessEdge]

theorem loopOutcome_append_of_declines (decision : Edge → Bool × Option GoError)
    (es₁ es₂ : List Edge) (h : ∀ e ∈ es₁, decision e = (false, none)) :
    loopOutcome decision (es₁ ++ es₂) = loopOutcome decision es₂ := by
  induction es₁ with
  | nil => simp
  | cons a rest ih =>
    have ha : decision a = (false, none) := h a (by simp)
    have hrest : ∀ e ∈ rest, decision e = (false, none) :=
      fun e he => h e (List.mem_cons_of_mem a he)
    simp [loopOutcome, ha, ih hrest]

theorem loopOutcome_of_declines (decision : Edge → Bool × Option GoError)
    (es : List Edge) (h : ∀ e ∈ es, decision e = (false, none)) :
    loopOutcome decision es = .exhausted := by
  have := loopOutcome_append_of_declines decision es [] h
  simpa using this

/-- `ProcessNode` after a successful node lookup and on-handler run: the
on-handler event followed by the edge loop. -/
theorem ProcessNode_eq_of_on_ok (ph : ProcessHandler) (nodeID : String)
    (node : Node) (onH : NodeHandlerFunc)
    (h₁ : ph.process.GetNodeByID nodeID = some node)
    (h₂ : ph.registry.getNodeHandler node.NodeType = some onH)
    (h₃ : onH node = none) :
    ph.ProcessNode nodeID =
      ((ph.processEdgesLoop node (ph.process.GetOutgoingEdges nodeID)).1,
       .onHandler node.ID ::
         (ph.processEdgesLoop node (ph.process.GetOutgoingEdges nodeID)).2) := by
  simp [ProcessHandler.ProcessNode, h₁, h₂, h₃]

/-- The accepted-edge actions when the after-handler, the circulate callback
and the destination's before-handler are all present and the destination
resolves: after-handler first, then circulate, then before-handler, each
failure cutting off everything after it. -/
theorem acceptedActions_eq_of_all_present (ph : ProcessHandler) (node : Node)
    (e : Edge) (af : NodeHandlerAfterFunc) (c : CirculateHandlerFunc)
    (nxt : Node) (bf : NodeHandlerBeforeFunc)
    (haf : ph.registry.getNodeAfterHandler node.NodeType = some af)
    (hcirc : ph.circulate = some c)
    (hdst : ph.process.GetNodeByID e.DstID = some nxt)
    (hbf : ph.registry.getNodeBeforeHandler nxt.NodeType = some bf) :
    ph.acceptedActions node e =
      (match af node with
       | some er => (some er, [.afterHandler node.ID])
       | none =>
         match (c e).2 with
         | some er => (some er, [.afterHandler node.ID, .circulate e.ID])
         | none =>
           (bf nxt,
            [.afterHandler node.ID, .circulate e.ID, .beforeHandler nxt.ID])) := by
  unfold ProcessHandler.acceptedActions
  rcases hA : af node with _ | aerr
  · rcases hC : (c e).2 with _ | cerr
    · simp [ProcessHandler.runAfterHandler, haf, hA,
        ProcessHandler.runCirculate, hcirc, hC,
        Graph.GetNextNodeByEdge, hdst,
        ProcessHandler.runBeforeHandler, hbf]
    · simp [ProcessHandler.runAfterHandler, haf, hA,
        ProcessHandler.runCirculate, hcirc, hC]
  · simp [ProcessHandler.runAfterHandler, haf, hA]

/-! ## Claim theorems -/

/-- Claim C4: if the on-handler of the current node returns an error,
`ProcessNode` aborts immediately and returns that error unchanged; its trace
is the on-handler invocation alone, so no outgoing edge's decision-handler is
invoked. -/
theorem c4_on_handler_failure_aborts (ph : ProcessHandler) (nodeID : String)
    (node : Node) (onH : NodeHandlerFunc) (err : GoError)
    (h₁ : ph.process.GetNodeByID nodeID = some node)
    (h₂ : ph.registry.getNodeHandler node.NodeType = some onH)
    (h₃ : onH node = some err) :
    ph.ProcessNode nodeID = (some err, [.onHandler node.ID]) ∧
      edgeEvents (ph.ProcessNode nodeID).2 = [] := by
  have hmain : ph.ProcessNode nodeID = (some err, [.onHandler node.ID]) := by
    simp [ProcessHandler.ProcessNode, h₁, h₂, h₃]
  exact ⟨hmain, by rw [hmain]; simp [edgeEvents]⟩

/-- Claim C5: a missing required handler is fatal.  First conjunct: a node
whose type has no registered on-handler makes `ProcessNode` fail with the
handler-not-found error before any edge is touched (empty trace).  Second
conjunct: `ProcessEdge` on an edge whose type has no registered
decision-handler returns the handler-not-found error without any invocation.
Third conjunct: when such an edge is actually reached in the loop (every
earlier outgoing edge declined), `ProcessNode` aborts with the
handler-not-found error instead of skipping the edge. -/
theorem c5_missing_handler_is_fatal :
    (∀ (ph : ProcessHandler) (nodeID : String) (node : Node),
      ph.process.GetNodeByID nodeID = some node →
      ph.registry.getNodeHandler node.NodeType = none →
      ph.ProcessNode nodeID = (some (.nodeHandlerNotFound node.NodeType), []))
    ∧ (∀ (ph : ProcessHandler) (e : Edge),
      ph.registry.getEdgeHandler e.EdgeType = none →
      ph.ProcessEdge e = ((false, some (.edgeHandlerNotFound e.EdgeType)), []))
    ∧ (∀ (ph : ProcessHandler) (nodeID : String) (node : Node)
        (onH : NodeHandlerFunc) (es₁ es₂ : List Edge) (e : Edge),
      ph.process.GetNodeByID nodeID = some node →
      ph.registry.getNodeHandler node.NodeType = some onH →
      onH node = none →
      ph.process.GetOutgoingEdges nodeID = es₁ ++ e :: es₂ →
      (∀ f ∈ es₁, ph.edgeDecision f = (false, none)) →
      ph.registry.getEdgeHandler e.EdgeType = none →
      (ph.ProcessNode nodeID).1 = some (.edgeHandlerNotFound e.EdgeType)) := by
  refine ⟨?_, ?_, ?_⟩
  · intro ph nodeID node h₁ h₂
    simp [ProcessHandler.ProcessNode, h₁, h₂]
  · intro ph e hE
    simp [ProcessHandler.ProcessEdge, hE]
  · intro ph nodeID node onH es₁ es₂ e h₁ h₂ h₃ hsplit hdecl hE
    have hdec : ph.edgeDecision e = (false, some (.edgeHandlerNotFound e.EdgeType)) := by
      simp [ProcessHandler.edgeDecision, ProcessHandler.ProcessEdge, hE]
    have hout : loopOutcome ph.edgeDecision (ph.process.GetOutgoingEdges nodeID)
        = .fail (.edgeHandlerNotFound e.EdgeType) := by
      rw [hsplit, loopOutcome_append_of_declines ph.edgeDecision es₁ (e :: es₂) hdecl]
      simp [loopOutcome, hdec]
    rw [ProcessNode_eq_of_on_ok ph nodeID node onH h₁ h₂ h₃,
      ph.processEdgesLoop_eq node (ph.process.GetOutgoingEdges nodeID), hout]

/-- Claim C6: when every outgoing decision-handler declines, `ProcessNode`
returns a nil error (success, no transition) and its trace contains no
after-handler, circulate (state-commit) or before-handler invocation. -/
theorem c6_all_decline_is_waiting (ph : ProcessHandler) (nodeID : String)
    (node : Node) (onH : NodeHandlerFunc)
    (h₁ : ph.process.GetNodeByID nodeID = some node)
    (h₂ : ph.registry.getNodeHandler node.NodeType = some onH)
    (h₃ : onH node = none)
    (hdecl : ∀ e ∈ ph.process.GetOutgoingEdges nodeID,
      ph.edgeDecision e = (false, none)) :
    (ph.ProcessNode nodeID).1 = none ∧
      hookEvents (ph.ProcessNode nodeID).2 = [] := by
  have hout := loopOutcome_of_declines ph.edgeDecision
    (ph.process.GetOutgoingEdges nodeID) hdecl
  rw [ProcessNode_eq_of_on_ok ph nodeID node onH h₁ h₂ h₃,
    ph.processEdgesLoop_eq node (ph.process.GetOutgoingEdges nodeID), hout]
  refine ⟨rfl, ?_⟩
  simp [hookEvents, Event.isHook]
  have := hookEvents_triedTrace ph (ph.process.GetOutgoingEdges nodeID)
  simpa [hookEvents] using this

/-- Claim C7: `GetNextNodeByEdge` returns the destination node exactly when
`edge.DstID` is present in the graph's node map, and fails with the
destination-unresolved error exactly when it is absent. -/
theorem c7_destination_resolution (g : Graph) (edge : Edge) :
    (∀ n, g.GetNodeByID edge.DstID = some n →
      g.GetNextNodeByEdge edge = .ok n)
    ∧ (g.GetNodeByID edge.DstID = none →
      g.GetNextNodeByEdge edge = .error (.destinationUnresolved edge.ID)) := by
  constructor
  · intro n h
    simp [Graph.GetNextNodeByEdge, h]
  · intro h
    simp [Graph.GetNextNodeByEdge, h]


theorem edgeEvents_cons_onHandler (i : String) (tr : List Event) :
    edgeEvents (Event.onHandler i :: tr) = edgeEvents tr := by
  simp [edgeEvents]

theorem hookEvents_cons_onHandler (i : String) (tr : List Event) :
    hookEvents (Event.onHandler i :: tr) = hookEvents tr := by
  simp [hookEvents, Event.isHook]

/-- Claim C2: during one `ProcessNode` call whose on-handler succeeds, and
with a decision-handler registered for every outgoing edge, the
decision-handler invocations recorded in the trace are exactly the IDs of
`triedEdges` — the outgoing edges in `GetOutgoingEdges` order up to and
including the first edge whose decision errs or accepts, so the decision-
handler of an edge past that point is never invoked; and when the stopping
decision carries an error, the call returns exactly that error. -/
theorem c2_decision_loop_order (ph : ProcessHandler) (nodeID : String)
    (node : Node) (onH : NodeHandlerFunc)
    (h₁ : ph.process.GetNodeByID nodeID = some node)
    (h₂ : ph.registry.getNodeHandler node.NodeType = some onH)
    (h₃ : onH node = none)
    (h₄ : ∀ e ∈ ph.process.GetOutgoingEdges nodeID,
      (ph.registry.getEdgeHandler e.EdgeType).isSome) :
    edgeEvents (ph.ProcessNode nodeID).2 =
      (triedEdges ph.edgeDecision (ph.process.GetOutgoingEdges nodeID)).map Edge.ID
    ∧ (∀ err, loopOutcome ph.edgeDecision (ph.process.GetOutgoingEdges nodeID)
        = .fail err → (ph.ProcessNode nodeID).1 = some err) := by
  rw [ProcessNode_eq_of_on_ok ph nodeID node onH h₁ h₂ h₃,
    ph.processEdgesLoop_eq node (ph.process.GetOutgoingEdges nodeID)]
  have htr := edgeEvents_triedTrace ph (ph.process.GetOutgoingEdges nodeID) h₄
  rcases hLO : loopOutcome ph.edgeDecision (ph.process.GetOutgoingEdges nodeID)
    with er | ae | _
  · refine ⟨?_, ?_⟩
    · simp only []
      rw [edgeEvents_cons_onHandler]
      exact htr
    · intro err herr
      cases herr
      rfl
  · refine ⟨?_, ?_⟩
    · simp only []
      rw [edgeEvents_cons_onHandler, edgeEvents_append, htr,
        edgeEvents_acceptedActions]
      simp
    · intro err herr
      cases herr
  · refine ⟨?_, ?_⟩
    · simp only []
      rw [edgeEvents_cons_onHandler]
      exact htr
    · intro err herr
      cases herr

/-- Claim C3: when an outgoing edge is accepted and the after-handler, the
circulate (state-commit) callback and the destination's before-handler are
all present with the destination resolvable, the hook invocations in the
step's trace are exactly after-handler(source), then circulate(edge), then
before-handler(destination), each failure cutting off all later hooks; and
the step's returned error is the first failure among the three (nil when all
three succeed). -/
theorem c3_acceptance_hook_order (ph : ProcessHandler) (nodeID : String)
    (node : Node) (onH : NodeHandlerFunc) (e : Edge)
    (af : NodeHandlerAfterFunc) (c : CirculateHandlerFunc) (nxt : Node)
    (bf : NodeHandlerBeforeFunc)
    (h₁ : ph.process.GetNodeByID nodeID = some node)
    (h₂ : ph.registry.getNodeHandler node.NodeType = some onH)
    (h₃ : onH node = none)
    (hacc : loopOutcome ph.edgeDecision (ph.process.GetOutgoingEdges nodeID)
      = .accepted e)
    (haf : ph.registry.getNodeAfterHandler node.NodeType = some af)
    (hcirc : ph.circulate = some c)
    (hdst : ph.process.GetNodeByID e.DstID = some nxt)
    (hbf : ph.registry.getNodeBeforeHandler nxt.NodeType = some bf) :
    hookEvents (ph.ProcessNode nodeID).2 =
      (.afterHandler node.ID ::
        (match af node with
         | some _ => []
         | none =>
           .circulate e.ID ::
             (match (c e).2 with
              | some _ => []
              | none => [.beforeHandler nxt.ID])))
    ∧ (ph.ProcessNode nodeID).1 =
        (match af node with
         | some er => some er
         | none =>
           match (c e).2 with
           | some er => some er
           | none => bf nxt) := by
  rw [ProcessNode_eq_of_on_ok ph nodeID node onH h₁ h₂ h₃,
    ph.processEdgesLoop_eq node (ph.process.GetOutgoingEdges nodeID), hacc]
  have hAA := acceptedActions_eq_of_all_present ph node e af c nxt bf
    haf hcirc hdst hbf
  have hht := hookEvents_triedTrace ph (ph.process.GetOutgoingEdges nodeID)
  rcases hA : af node with _ | aerr
  · rcases hC : (c e).2 with _ | cerr
    · rw [hA, hC] at hAA
      simp only [hA, hC]
      rw [hAA]
      refine ⟨?_, rfl⟩
      simp only []
      rw [hookEvents_cons_onHandler, hookEvents_append, hht]
      simp [hookEvents, Event.isHook]
    · rw [hA, hC] at hAA
      simp only [hA, hC]
      rw [hAA]
      refine ⟨?_, rfl⟩
      simp only []
      rw [hookEvents_cons_onHandler, hookEvents_append, hht]
      simp [hookEvents, Event.isHook]
  · rw [hA] at hAA
    simp only [hA]
    rw [hAA]
    refine ⟨?_, rfl⟩
    simp only []
    rw [hookEvents_cons_onHandler, hookEvents_append, hht]
    simp [hookEvents, Event.isHook]

theorem acceptedActions_circ_congr (g : Graph) (reg : ProcessRegistry)
    (c₁ c₂ : Option CirculateHandlerFunc)
    (hc : ∀ e, ProcessHandler.runCirculate ⟨g, reg, c₁⟩ e =
      ProcessHandler.runCirculate ⟨g, reg, c₂⟩ e)
    (node : Node) (e : Edge) :
    ProcessHandler.acceptedActions ⟨g, reg, c₁⟩ node e =
      ProcessHandler.acceptedActions ⟨g, reg, c₂⟩ node e := by
  unfold ProcessHandler.acceptedActions
  rw [hc e]
  rfl

theorem processEdgesLoop_circ_congr (g : Graph) (reg : ProcessRegistry)
    (c₁ c₂ : Option CirculateHandlerFunc)
    (hc : ∀ e, ProcessHandler.runCirculate ⟨g, reg, c₁⟩ e =
      ProcessHandler.runCirculate ⟨g, reg, c₂⟩ e)
    (node : Node) (es : List Edge) :
    ProcessHandler.processEdgesLoop ⟨g, reg, c₁⟩ node es =
      ProcessHandler.processEdgesLoop ⟨g, reg, c₂⟩ node es := by
  induction es with
  | nil => rfl
  | cons e rest ih =>
    unfold ProcessHandler.processEdgesLoop
    rw [acceptedActions_circ_congr g reg c₁ c₂ hc node e, ih]
    rfl

theorem ProcessNode_circ_congr (g : Graph) (reg : ProcessRegistry)
    (c₁ c₂ : Option CirculateHandlerFunc)
    (hc : ∀ e, ProcessHandler.runCirculate ⟨g, reg, c₁⟩ e =
      ProcessHandler.runCirculate ⟨g, reg, c₂⟩ e)
    (nodeID : String) :
    ProcessHandler.ProcessNode ⟨g, reg, c₁⟩ nodeID =
      ProcessHandler.ProcessNode ⟨g, reg, c₂⟩ nodeID := by
  unfold ProcessHandler.ProcessNode
  simp only [processEdgesLoop_circ_congr g reg c₁ c₂ hc]

/-- Claim C10: the boolean returned by the circulate (state-commit) callback
is dead — the Go code overwrites `ok` with it and then immediately breaks.
First conjunct: a step behaves identically under two callbacks that agree on
the error but return opposite booleans.  Second conjunct: when the accepted
edge's callback returns `(false, nil)` and the rest of the accepted path is
healthy, the step still resolves the destination, still invokes the
destination's before-handler and still returns success. -/
theorem c10_circulate_bool_ignored :
    (∀ (g : Graph) (reg : ProcessRegistry) (c : CirculateHandlerFunc)
       (nodeID : String),
      ProcessHandler.ProcessNode ⟨g, reg, some fun e => (false, (c e).2)⟩ nodeID =
        ProcessHandler.ProcessNode ⟨g, reg, some fun e => (true, (c e).2)⟩ nodeID)
    ∧ (∀ (ph : ProcessHandler) (nodeID : String) (node : Node)
        (onH : NodeHandlerFunc) (e : Edge) (c : CirculateHandlerFunc)
        (nxt : Node) (bf : NodeHandlerBeforeFunc),
      ph.process.GetNodeByID nodeID = some node →
      ph.registry.getNodeHandler node.NodeType = some onH →
      onH node = none →
      loopOutcome ph.edgeDecision (ph.process.GetOutgoingEdges nodeID)
        = .accepted e →
      (∀ af, ph.registry.getNodeAfterHandler node.NodeType = some af →
        af node = none) →
      ph.circulate = some c →
      c e = (false, none) →
      ph.process.GetNodeByID e.DstID = some nxt →
      ph.registry.getNodeBeforeHandler nxt.NodeType = some bf →
      bf nxt = none →
      (ph.ProcessNode nodeID).1 = none ∧
        Event.beforeHandler nxt.ID ∈ (ph.ProcessNode nodeID).2) := by
  constructor
  · intro g reg c nodeID
    exact ProcessNode_circ_congr g reg (some fun e => (false, (c e).2))
      (some fun e => (true, (c e).2)) (fun e => rfl) nodeID
  · intro ph nodeID node onH e c nxt bf h₁ h₂ h₃ hacc hafter hcirc hce hdst
      hbf hbfok
    have hAA : ph.acceptedActions node e =
        (none, (ph.runAfterHandler node).2 ++
          [.circulate e.ID, .beforeHandler nxt.ID]) := by
      unfold ProcessHandler.acceptedActions
      have hcr : ph.runCirculate e = (none, [.circulate e.ID]) := by
        simp [ProcessHandler.runCirculate, hcirc, hce]
      have hra : ph.runAfterHandler node = (none, (ph.runAfterHandler node).2) := by
        unfold ProcessHandler.runAfterHandler
        rcases hga : ph.registry.getNodeAfterHandler node.NodeType with _ | af
        · simp
        · simp [hafter af hga]
      rw [hra]
      simp only []
      rw [hcr]
      simp only []
      rw [show ph.process.GetNextNodeByEdge e = .ok nxt by
        simp [Graph.GetNextNodeByEdge, hdst]]
      simp [ProcessHandler.runBeforeHandler, hbf, hbfok]
    rw [ProcessNode_eq_of_on_ok ph nodeID node onH h₁ h₂ h₃,
      ph.processEdgesLoop_eq node (ph.process.GetOutgoingEdges nodeID), hacc]
    simp only []
    rw [hAA]
    refine ⟨rfl, ?_⟩
    simp

theorem GetNodeByID_id_eq (g : Graph) (hk : g.WellKeyed) (k : String)
    (n : Node) (h : g.GetNodeByID k = some n) : n.ID = k := by
  unfold Graph.GetNodeByID mapLookup at h
  rcases hf : g.nodes.find? (fun p => p.1 == k) with _ | p
  · rw [hf] at h; simp at h
  · rw [hf] at h
    simp at h
    have hmem := List.mem_of_find?_eq_some hf
    have hpred := List.find?_some hf
    simp at hpred
    have hkey := hk p hmem
    rw [← h, ← hkey, hpred]

theorem filterMap_lookup_map_id (g : Graph) (hk : g.WellKeyed)
    (L : List Edge) :
    (L.filterMap (fun e => g.GetNodeByID e.DstID)).map Node.ID =
      (L.filter (fun e => (g.GetNodeByID e.DstID).isSome)).map Edge.DstID := by
  induction L with
  | nil => simp
  | cons a rest ih =>
    rcases hl : g.GetNodeByID a.DstID with _ | n
    · simp [hl, ih]
    · have := GetNodeByID_id_eq g hk a.DstID n hl
      simp [hl, ih, this]

/-- Claim C8 (amended): on a graph whose node map is keyed by each node's own
ID (as every graph built by `NewProcess` is), `GetNextNodes` never returns an
error, and the nodes it returns are, in the same order, the destinations of
exactly those outgoing edges whose destination ID is present in the graph —
edges with an absent destination are silently skipped. -/
theorem c8_next_nodes_amended (g : Graph) (nodeID : String)
    (hk : g.WellKeyed) :
    (g.GetNextNodes nodeID).2 = none ∧
      ((g.GetNextNodes nodeID).1.map Node.ID =
        ((g.GetOutgoingEdges nodeID).filter
          (fun e => (g.GetNodeByID e.DstID).isSome)).map Edge.DstID) := by
  refine ⟨rfl, ?_⟩
  exact filterMap_lookup_map_id g hk (g.GetOutgoingEdges nodeID)

/-! ## Concrete instances for the counterexamples and witnesses -/

/-- Edge with priority 2, declared first; source node A. -/
def prioEdgeHigh : Edge := ⟨"e1", "B", "A", 2, "t", []⟩

/-- Edge with priority 1, declared second; source node A. -/
def prioEdgeLow : Edge := ⟨"e2", "C", "A", 1, "t", []⟩

/-- Process with three nodes and the two edges above declared in the order
priority-2 then priority-1, as in the spec's ordering scenario. -/
def prioProcess : Process :=
  ⟨[⟨"A", "A", "nt", []⟩, ⟨"B", "B", "nt", []⟩, ⟨"C", "C", "nt", []⟩],
   [prioEdgeHigh, prioEdgeLow]⟩

/-- Process with one node and one outgoing edge whose destination `B` is
absent from the graph. -/
def danglingProcess : Process :=
  ⟨[⟨"A", "A", "nt", []⟩], [⟨"e1", "B", "A", 1, "t", []⟩]⟩

/-- Claim C8 (counterexample): on the graph with a single outgoing edge whose
destination is absent, `GetNextNodes` returns no node at all, so the returned
sequence is not "the destinations of `OutgoingEdges`, in the same order" —
the claim as stated fails at this input. -/
theorem c8_counterexample :
    ((NewProcess danglingProcess).1.GetNextNodes "A").1.map Node.ID ≠
      ((NewProcess danglingProcess).1.GetOutgoingEdges "A").map Edge.DstID := by
  decide

/-- Claim C8 (witness for the amended theorem): on the dangling-destination
graph the amended statement holds concretely. -/
theorem c8_witness :
    ((NewProcess danglingProcess).1.GetNextNodes "A").2 = none ∧
      (((NewProcess danglingProcess).1.GetNextNodes "A").1.map Node.ID =
        (((NewProcess danglingProcess).1.GetOutgoingEdges "A").filter
          (fun e => ((NewProcess danglingProcess).1.GetNodeByID e.DstID).isSome)).map
            Edge.DstID) :=
  c8_next_nodes_amended (NewProcess danglingProcess).1 "A" (by decide)

/-- Claim C1 (code bug, evaluated at the failing input): with the two
outgoing edges of node A declared in the order priority-2 then priority-1,
the constructed graph's `GetOutgoingEdges` presents them in map-iteration
order (here the insertion-order representative), not ascending by priority:
the priority-2 edge comes first.  The `sort.Slice` call in `NewProcess` runs
on the input slice only after the edge map has been filled, so it cannot
affect this order; and Go guarantees no map iteration order at all. -/
theorem c1_outgoing_edges_unsorted :
    (NewProcess prioProcess).1.GetOutgoingEdges "A" = [prioEdgeHigh, prioEdgeLow]
    ∧ ¬ SortedByPriority ((NewProcess prioProcess).1.GetOutgoingEdges "A") := by
  constructor
  · decide
  · decide

/-- Claim C9 (code bug, evaluated at the failing input): `NewProcess` sorts
the caller's `Edges` slice in place, so after construction the caller's
process definition no longer lists its edges in declaration order; the
`Nodes` sequence is left unchanged.  The two priorities here are distinct, so
the sorted arrangement is the same for every sorting algorithm, including
Go's unstable `sort.Slice`. -/
theorem c9_new_process_mutates_edges :
    (NewProcess prioProcess).2.Edges ≠ prioProcess.Edges
    ∧ (NewProcess prioProcess).2.Edges = [prioEdgeLow, prioEdgeHigh]
    ∧ (NewProcess prioProcess).2.Nodes = prioProcess.Nodes := by
  refine ⟨by decide, by decide, rfl⟩

/-! ## Witness data: a concrete process handler built from `prioProcess` -/

/-- A node handler that always succeeds. -/
def okNodeHandler : NodeHandlerFunc := fun _ => none

/-- A decision-handler that accepts every edge. -/
def acceptEdgeHandler : EdgeHandlerFunc := fun _ => (true, none)

/-- A decision-handler that declines every edge without error. -/
def declineEdgeHandler : EdgeHandlerFunc := fun _ => (false, none)

/-- A circulate callback that reports not-committed with a nil error. -/
def noCommitCirculate : CirculateHandlerFunc := fun _ => (false, none)

/-- Registry with every handler kind registered for the tags of
`prioProcess`; the decision-handler accepts. -/
def wRegistry : ProcessRegistry where
  getNodeHandler := fun t => if t == "nt" then some okNodeHandler else none
  getNodeAfterHandler := fun t => if t == "nt" then some okNodeHandler else none
  getNodeBeforeHandler := fun t => if t == "nt" then some okNodeHandler else none
  getEdgeHandler := fun t => if t == "t" then some acceptEdgeHandler else none

/-- Handler over the `prioProcess` graph with the full registry and a
non-committing circulate callback. -/
def wPH : ProcessHandler :=
  ⟨(NewProcess prioProcess).1, wRegistry, some noCommitCirculate⟩

/-- Registry whose only node handler fails. -/
def wErrRegistry : ProcessRegistry where
  getNodeHandler := fun t =>
    if t == "nt" then some (fun _ => some (.handlerFailure "boom")) else none
  getNodeAfterHandler := fun _ => none
  getNodeBeforeHandler := fun _ => none
  getEdgeHandler := fun _ => none

/-- Handler whose on-handler fails. -/
def wErrPH : ProcessHandler := ⟨(NewProcess prioProcess).1, wErrRegistry, none⟩

/-- Registry with nothing registered at all. -/
def wEmptyRegistry : ProcessRegistry where
  getNodeHandler := fun _ => none
  getNodeAfterHandler := fun _ => none
  getNodeBeforeHandler := fun _ => none
  getEdgeHandler := fun _ => none

/-- Handler with an empty registry. -/
def wEmptyPH : ProcessHandler := ⟨(NewProcess prioProcess).1, wEmptyRegistry, none⟩

/-- Registry with an on-handler but no decision-handler. -/
def wNodeOnlyRegistry : ProcessRegistry where
  getNodeHandler := fun t => if t == "nt" then some okNodeHandler else none
  getNodeAfterHandler := fun _ => none
  getNodeBeforeHandler := fun _ => none
  getEdgeHandler := fun _ => none

/-- Handler with node handlers only. -/
def wNodeOnlyPH : ProcessHandler :=
  ⟨(NewProcess prioProcess).1, wNodeOnlyRegistry, none⟩

/-- Registry whose decision-handler declines every edge. -/
def wDeclineRegistry : ProcessRegistry where
  getNodeHandler := fun t => if t == "nt" then some okNodeHandler else none
  getNodeAfterHandler := fun _ => none
  getNodeBeforeHandler := fun _ => none
  getEdgeHandler := fun t => if t == "t" then some declineEdgeHandler else none

/-- Handler whose decision-handlers all decline. -/
def wDeclinePH : ProcessHandler :=
  ⟨(NewProcess prioProcess).1, wDeclineRegistry, some noCommitCirculate⟩

/-- Witness for the C2 theorem at the concrete accepting handler: all four
hypotheses hold and the conclusion evaluates. -/
theorem c2_witness :
    edgeEvents (wPH.ProcessNode "A").2 =
      (triedEdges wPH.edgeDecision (wPH.process.GetOutgoingEdges "A")).map
        Edge.ID :=
  (c2_decision_loop_order wPH "A" ⟨"A", "A", "nt", []⟩ okNodeHandler
    (by decide) rfl rfl (by decide)).1

/-- Witness for the C3 theorem: on `wPH` the first outgoing edge of A is
accepted and the three hooks fire in order, ending in success. -/
theorem c3_witness :
    hookEvents (wPH.ProcessNode "A").2 =
      [.afterHandler "A", .circulate "e1", .beforeHandler "B"]
    ∧ (wPH.ProcessNode "A").1 = none := by
  have h := c3_acceptance_hook_order wPH "A" ⟨"A", "A", "nt", []⟩
    okNodeHandler prioEdgeHigh okNodeHandler noCommitCirculate
    ⟨"B", "B", "nt", []⟩ okNodeHandler
    (by decide) rfl rfl (by decide) rfl rfl (by decide) rfl
  exact ⟨h.1, h.2⟩

/-- Witness for the C4 theorem: the failing on-handler's error comes back
unchanged and the trace stops at the on-handler. -/
theorem c4_witness :
    wErrPH.ProcessNode "A" = (some (.handlerFailure "boom"), [.onHandler "A"]) :=
  (c4_on_handler_failure_aborts wErrPH "A" ⟨"A", "A", "nt", []⟩
    (fun _ => some (.handlerFailure "boom")) (.handlerFailure "boom")
    (by decide) rfl rfl).1

/-- Witness for the C5 theorem: the empty registry makes the step fail with
node-handler-not-found, `ProcessEdge` on an unregistered edge type fails with
edge-handler-not-found, and a step that reaches such an edge aborts with that
error. -/
theorem c5_witness :
    wEmptyPH.ProcessNode "A" = (some (.nodeHandlerNotFound "nt"), [])
    ∧ wEmptyPH.ProcessEdge prioEdgeHigh
        = ((false, some (.edgeHandlerNotFound "t")), [])
    ∧ (wNodeOnlyPH.ProcessNode "A").1 = some (.edgeHandlerNotFound "t") := by
  refine ⟨?_, ?_, ?_⟩
  · exact c5_missing_handler_is_fatal.1 wEmptyPH "A" ⟨"A", "A", "nt", []⟩
      (by decide) rfl
  · exact c5_missing_handler_is_fatal.2.1 wEmptyPH prioEdgeHigh rfl
  · exact c5_missing_handler_is_fatal.2.2 wNodeOnlyPH "A" ⟨"A", "A", "nt", []⟩
      okNodeHandler [] [prioEdgeLow] prioEdgeHigh (by decide) rfl rfl
      (by decide) (by decide) rfl

/-- Witness for the C6 theorem: with both decision-handlers declining, the
step succeeds and no hook fires. -/
theorem c6_witness :
    (wDeclinePH.ProcessNode "A").1 = none
    ∧ hookEvents (wDeclinePH.ProcessNode "A").2 = [] :=
  c6_all_decline_is_waiting wDeclinePH "A" ⟨"A", "A", "nt", []⟩ okNodeHandler
    (by decide) rfl rfl (by decide)

/-- Witness for the C7 theorem: a present destination resolves to its node,
an absent destination gives the destination-unresolved error. -/
theorem c7_witness :
    (NewProcess prioProcess).1.GetNextNodeByEdge prioEdgeHigh
        = .ok ⟨"B", "B", "nt", []⟩
    ∧ (NewProcess danglingProcess).1.GetNextNodeByEdge ⟨"e1", "B", "A", 1, "t", []⟩
        = .error (.destinationUnresolved "e1") := by
  refine ⟨?_, ?_⟩
  · exact (c7_destination_resolution (NewProcess prioProcess).1 prioEdgeHigh).1
      ⟨"B", "B", "nt", []⟩ (by decide)
  · exact (c7_destination_resolution (NewProcess danglingProcess).1
      ⟨"e1", "B", "A", 1, "t", []⟩).2 (by decide)

/-- Witness for the C10 theorem: flipping the circulate callback's boolean at
the concrete handler changes nothing, and with the callback answering
`(false, nil)` the step still reaches B's before-handler and succeeds. -/
theorem c10_witness :
    ProcessHandler.ProcessNode
        ⟨(NewProcess prioProcess).1, wRegistry,
          some fun e => (false, (noCommitCirculate e).2)⟩ "A"
      = ProcessHandler.ProcessNode
        ⟨(NewProcess prioProcess).1, wRegistry,
          some fun e => (true, (noCommitCirculate e).2)⟩ "A"
    ∧ ((wPH.ProcessNode "A").1 = none
        ∧ Event.beforeHandler "B" ∈ (wPH.ProcessNode "A").2) := by
  refine ⟨c10_circulate_bool_ignored.1 (NewProcess prioProcess).1 wRegistry
    noCommitCirculate "A", ?_⟩
  exact c10_circulate_bool_ignored.2 wPH "A" ⟨"A", "A", "nt", []⟩
    okNodeHandler prioEdgeHigh noCommitCirculate ⟨"B", "B", "nt", []⟩
    okNodeHandler (by decide) rfl rfl (by decide)
    (fun af h => by rw [← Option.some.inj h]; rfl) rfl rfl (by decide) rfl rfl
